import Mathlib

/-!
Verification of the FedAvg round-coordination engine
(`src/blazefl/contrib/fedavg.py`).

Model parameters ("serialized tensors") are embedded as lists of scalar
values.  A scalar of a torch floating-point tensor is embedded as `TVal`:
an exact rational, positive or negative infinity, or NaN, so that the
division-by-zero and NaN-propagation behaviour of torch arithmetic is
representable (rounding of finite values is abstracted to exact rational
arithmetic).
-/

namespace BlazeFL

/-- A scalar value of a torch floating-point tensor: finite (exact
rational), `inf`, `-inf`, or NaN. -/
inductive TVal where
  | fin (q : ℚ)
  | inf
  | ninf
  | nan
deriving DecidableEq, Repr

/-- IEEE-style multiplication on `TVal` (NaN propagates; `0 * inf = nan`). -/
def tmul : TVal → TVal → TVal
  | .nan, _ => .nan
  | _, .nan => .nan
  | .fin a, .fin b => .fin (a * b)
  | .fin a, .inf => if 0 < a then .inf else if a < 0 then .ninf else .nan
  | .fin a, .ninf => if 0 < a then .ninf else if a < 0 then .inf else .nan
  | .inf, .fin b => if 0 < b then .inf else if b < 0 then .ninf else .nan
  | .ninf, .fin b => if 0 < b then .ninf else if b < 0 then .inf else .nan
  | .inf, .inf => .inf
  | .inf, .ninf => .ninf
  | .ninf, .inf => .ninf
  | .ninf, .ninf => .inf

/-- IEEE-style addition on `TVal` (NaN propagates; `inf + -inf = nan`). -/
def tadd : TVal → TVal → TVal
  | .nan, _ => .nan
  | _, .nan => .nan
  | .fin a, .fin b => .fin (a + b)
  | .fin _, .inf => .inf
  | .fin _, .ninf => .ninf
  | .inf, .fin _ => .inf
  | .ninf, .fin _ => .ninf
  | .inf, .inf => .inf
  | .ninf, .ninf => .ninf
  | .inf, .ninf => .nan
  | .ninf, .inf => .nan

/-- `torch.sum` over a vector of scalars, accumulating left to right from
`0.0`. -/
def tsum (l : List TVal) : TVal :=
  List.foldl tadd (TVal.fin 0) l

/-- True division of two torch integer scalars (promotes to floating
point): `x / 0` is `±inf` and `0 / 0` is NaN, exactly as in torch. -/
def intDiv (a b : ℤ) : TVal :=
  if b = 0 then
    if a = 0 then .nan else if 0 < a then .inf else .ninf
  else .fin ((a : ℚ) / (b : ℚ))

/-- Errors that `FedAvgServerHandler.aggregate` can raise at run time:
`torch.stack` on an empty list or on tensors of unequal shapes, and a
failed shape broadcast in `parameters * weights`. -/
inductive AggError where
  | stackError
  | broadcastError
deriving DecidableEq, Repr

/-- `FedAvgServerHandler.aggregate` (fedavg.py, lines 167-189).
`torch.stack(parameters_list, dim=-1)` requires a nonempty list of
equal-length vectors, giving a `(d, n)` tensor.  The integer weights are
summed exactly and each is divided by the sum with torch true division
(`intDiv`, so a zero sum gives `±inf`/NaN, not an error).  The product
`parameters * weights` broadcasts the weight vector of length `m` against
the last dimension `n`, which requires `m = n`, `m = 1`, or `n = 1`;
`torch.sum(..., dim=-1)` then reduces the last dimension. -/
def aggregate (parameters_list : List (List TVal)) (weights_list : List ℤ) :
    Except AggError (List TVal) :=
  match parameters_list with
  | [] => .error .stackError
  | p0 :: rest =>
    if rest.all (fun p => p.length = p0.length) then
      let n := (p0 :: rest).length
      let m := weights_list.length
      let wsum := weights_list.sum
      let nweights := weights_list.map (fun w => intDiv w wsum)
      if m = n then
        .ok ((List.range p0.length).map (fun j =>
          tsum (List.zipWith (fun p w => tmul (p.getD j .nan) w) (p0 :: rest) nweights)))
      else if m = 1 then
        .ok ((List.range p0.length).map (fun j =>
          tsum ((p0 :: rest).map (fun p => tmul (p.getD j .nan) (nweights.getD 0 .nan)))))
      else if n = 1 then
        .ok (p0.map (fun x => tsum (nweights.map (fun w => tmul x w))))
      else .error .broadcastError
    else .error .stackError

/-- `FedAvgUplinkPackage` (fedavg.py, lines 25-39). -/
structure FedAvgUplinkPackage where
  model_parameters : List TVal
  data_size : ℤ
  metadata : Option (List (String × ℚ)) := none
deriving DecidableEq, Repr

/-- `FedAvgDownlinkPackage` (fedavg.py, lines 42-53). -/
structure FedAvgDownlinkPackage where
  model_parameters : List TVal
deriving DecidableEq, Repr

/-- Python `int()` applied to a rational: truncation toward zero, i.e.
the numerator divided by the denominator with T-division. -/
def pyInt (q : ℚ) : ℤ :=
  q.num.tdiv q.den

/-- State of a `FedAvgServerHandler` (fedavg.py, lines 56-258).  The
global model is represented by its serialized parameter vector
(`serialize_model`/`deserialize_model` from `blazefl.utils` are modelled
as mutually inverse, so holding the serialized form is equivalent to
holding the live model).  External collaborators (model selector,
dataset, device, batch size) do not affect the round state machine and
are omitted. -/
structure FedAvgServerHandler where
  global_round : ℕ
  num_clients : ℕ
  sample_ratio : ℚ
  model : List TVal
  client_buffer_cache : List FedAvgUplinkPackage
  num_clients_per_round : ℤ
  round : ℕ

/-- `FedAvgServerHandler.__init__` (fedavg.py, lines 76-109):
empty buffer, `num_clients_per_round = int(num_clients * sample_ratio)`,
round 0. -/
def FedAvgServerHandler.init (g nc : ℕ) (r : ℚ) (m : List TVal) :
    FedAvgServerHandler :=
  { global_round := g
    num_clients := nc
    sample_ratio := r
    model := m
    client_buffer_cache := []
    num_clients_per_round := pyInt ((nc : ℚ) * r)
    round := 0 }

/-- `FedAvgServerHandler.if_stop` (fedavg.py, lines 124-132). -/
def FedAvgServerHandler.if_stop (s : FedAvgServerHandler) : Bool :=
  s.global_round ≤ s.round

/-- `FedAvgServerHandler.global_update` (fedavg.py, lines 155-165):
extracts parameter vectors and data sizes from the buffer and aggregates
them; the aggregated vector is deserialized into the global model, so it
is returned here as the new model parameter vector. -/
def FedAvgServerHandler.global_update (buffer : List FedAvgUplinkPackage) :
    Except AggError (List TVal) :=
  let parameters_list := buffer.map (fun ele => ele.model_parameters)
  let weights_list := buffer.map (fun ele => ele.data_size)
  aggregate parameters_list weights_list

/-- `FedAvgServerHandler.load` (fedavg.py, lines 134-153): append to the
buffer; when its length reaches `num_clients_per_round`, run
`global_update`, increment the round and clear the buffer, returning
true, else return false.  If `global_update` raises, the exception
propagates with the payload already appended (Python mutates the buffer
before aggregating), which the `Except.error` branch records. -/
def FedAvgServerHandler.load (s : FedAvgServerHandler)
    (payload : FedAvgUplinkPackage) :
    FedAvgServerHandler × Except AggError Bool :=
  let buf := s.client_buffer_cache ++ [payload]
  if (buf.length : ℤ) = s.num_clients_per_round then
    match FedAvgServerHandler.global_update buf with
    | .ok params =>
        ({ s with model := params, round := s.round + 1, client_buffer_cache := [] },
          .ok true)
    | .error e => ({ s with client_buffer_cache := buf }, .error e)
  else
    ({ s with client_buffer_cache := buf }, .ok false)

/-- `FedAvgServerHandler.downlink_package` (fedavg.py, lines 249-258):
serializes the current global model. -/
def FedAvgServerHandler.downlink_package (s : FedAvgServerHandler) :
    FedAvgDownlinkPackage :=
  { model_parameters := s.model }

/-- Folding `load` over a list of payloads, keeping only the state. -/
def loadAll (s : FedAvgServerHandler) (ps : List FedAvgUplinkPackage) :
    FedAvgServerHandler :=
  ps.foldl (fun t p => (t.load p).1) s

/-- Modelled from the spec: the inner step of Python's
`random.sample(range(n), k)` (the standard library, outside this
repository), which draws `k` ids without replacement.  Each step the
underlying random source, abstracted as `pick`, selects one index into
the pool of ids not yet drawn; the drawn id is removed from the pool. -/
def randomSampleAux (pick : ℕ → ℕ) : ℕ → List ℕ → List ℕ
  | 0, _ => []
  | k + 1, pool =>
    let i := pick k % pool.length
    pool.getD i 0 :: randomSampleAux pick k (pool.eraseIdx i)

/-- Modelled from the spec: Python's `random.sample(range(n), k)` draws
`k` distinct ids from `[0, n)` without replacement and raises
`ValueError` (here `none`) when `k > n`. -/
def randomSample (pick : ℕ → ℕ) (n k : ℕ) : Option (List ℕ) :=
  if k ≤ n then some (randomSampleAux pick k (List.range n)) else none

/-- `FedAvgServerHandler.sample_clients` (fedavg.py, lines 111-122):
`sorted(random.sample(range(self.num_clients), self.num_clients_per_round))`.
The outcome of the process-global random source is abstracted as `pick`. -/
def FedAvgServerHandler.sample_clients (s : FedAvgServerHandler)
    (pick : ℕ → ℕ) : Option (List ℕ) :=
  (randomSample pick s.num_clients s.num_clients_per_round.toNat).map
    (fun l => l.mergeSort (fun a b => a ≤ b))

/-- State of a `FedAvgSerialClientTrainer` (fedavg.py, lines 261-317):
the local model (of abstract type `M`, carried across clients because
the same live model object is reused) and the uplink cache.  The
external collaborators fixed at construction (dataset, optimizer,
epochs, batch size, learning rate) are absorbed into the training and
evaluation routines passed to `local_process`. -/
structure FedAvgSerialClientTrainer (M : Type) where
  model : M
  cache : List FedAvgUplinkPackage

/-- One iteration of the `local_process` loop body (fedavg.py, lines
334-344) given the abstract training routine `trainFn` (the `train`
method: deserializes the downlink parameters into the model, trains on
client `cid`'s train split, and returns the updated model together with
an `FedAvgUplinkPackage` of serialized parameters and data size) and
evaluation routine `evalFn` (the `evaluate` method on client `cid`'s
val split, returning loss and accuracy). -/
def localStep {M : Type}
    (trainFn : M → List TVal → ℕ → M × FedAvgUplinkPackage)
    (evalFn : M → ℕ → ℚ × ℚ)
    (params : List TVal) (t : FedAvgSerialClientTrainer M) (cid : ℕ) :
    FedAvgSerialClientTrainer M :=
  let tr := trainFn t.model params cid
  let la := evalFn tr.1 cid
  { model := tr.1
    cache := t.cache ++
      [{ tr.2 with metadata := some [("loss", la.1), ("acc", la.2)] }] }

/-- `FedAvgSerialClientTrainer.local_process` (fedavg.py, lines
319-344): for each client id in the given order, train, evaluate,
attach `loss`/`acc` metadata, and append the package to the cache. -/
def FedAvgSerialClientTrainer.local_process {M : Type}
    (t : FedAvgSerialClientTrainer M)
    (trainFn : M → List TVal → ℕ → M × FedAvgUplinkPackage)
    (evalFn : M → ℕ → ℚ × ℚ)
    (payload : FedAvgDownlinkPackage) (cid_list : List ℕ) :
    FedAvgSerialClientTrainer M :=
  cid_list.foldl (localStep trainFn evalFn payload.model_parameters) t

/-- `FedAvgSerialClientTrainer.uplink_package` (fedavg.py, lines
419-428): `deepcopy` the cache, reset it to `[]`, and return the copy.
In this value-semantics embedding the deep copy is the returned value
itself. -/
def FedAvgSerialClientTrainer.uplink_package {M : Type}
    (t : FedAvgSerialClientTrainer M) :
    FedAvgSerialClientTrainer M × List FedAvgUplinkPackage :=
  ({ t with cache := [] }, t.cache)

/-- The package one client contributes: the training routine's package
with `loss`/`acc` metadata from evaluating the trained model. -/
def packageFor {M : Type}
    (trainFn : M → List TVal → ℕ → M × FedAvgUplinkPackage)
    (evalFn : M → ℕ → ℚ × ℚ)
    (m : M) (params : List TVal) (cid : ℕ) : FedAvgUplinkPackage :=
  { (trainFn m params cid).2 with
    metadata := some [("loss", (evalFn (trainFn m params cid).1 cid).1),
                      ("acc", (evalFn (trainFn m params cid).1 cid).2)] }

/-- The packages produced by processing `cid_list` in order, starting
from model state `m` (the normal-form view of `local_process`). -/
def clientPackages {M : Type}
    (trainFn : M → List TVal → ℕ → M × FedAvgUplinkPackage)
    (evalFn : M → ℕ → ℚ × ℚ)
    (m : M) (params : List TVal) : List ℕ → List FedAvgUplinkPackage
  | [] => []
  | cid :: rest =>
    packageFor trainFn evalFn m params cid ::
      clientPackages trainFn evalFn (trainFn m params cid).1 params rest

/-- The model state after training the clients of `cids` in order,
starting from `m`. -/
def modelAfter {M : Type}
    (trainFn : M → List TVal → ℕ → M × FedAvgUplinkPackage)
    (m : M) (params : List TVal) (cids : List ℕ) : M :=
  cids.foldl (fun m cid => (trainFn m params cid).1) m

/-- Modelled from the spec: `RandomState` (from `blazefl.utils`, not in
src) is an opaque serialized snapshot of the process-global random
generator state, abstracted here as a single natural number. -/
structure RandomState where
  state : ℕ
deriving DecidableEq, Repr

/-- Modelled from the spec: `seed_everything(seed, device)` (from
`blazefl.utils`, not in src) puts the global random stream into a state
determined only by the seed and the device. -/
def seed_everything (seed device : ℕ) : RandomState :=
  ⟨Nat.pair seed device⟩

/-- `FedAvgDiskSharedData` (fedavg.py, lines 431-462).  File-system
paths are abstracted as natural numbers; the model selector and dataset
handles, which only feed the abstract training routine, are dropped. -/
structure FedAvgDiskSharedData where
  model_name : ℕ
  epochs : ℕ
  batch_size : ℕ
  lr : ℚ
  cid : ℕ
  seed : ℕ
  payload : FedAvgDownlinkPackage
  state_path : ℕ

/-- Contents of a file written with `torch.save`: a task envelope
(shared data), an uplink package, or a random-state snapshot. -/
inductive FileData where
  | shared (d : FedAvgDiskSharedData)
  | uplink (p : FedAvgUplinkPackage)
  | rstate (r : RandomState)

/-- The file system: a partial map from (abstract) paths to file
contents. -/
abbrev FS := ℕ → Option FileData

/-- `torch.save(f, path)`: overwrite the file at `path`. -/
def fsWrite (fs : FS) (path : ℕ) (f : FileData) : FS :=
  fun q => if q = path then some f else fs q

/-- Run-time failures of `process_client`: `torch.load` on a missing
file, or a failed `assert isinstance(...)`. -/
inductive ProcError where
  | loadError
  | assertError
deriving DecidableEq, Repr

/-- `FedAvgParallelClientTrainer.process_client` (fedavg.py, lines
537-579), the worker-side entry point.  `trainFn` abstracts the static
`train` method (model building, the epoch loop, and serialization): it
consumes the global random stream and the task envelope and returns the
post-training random state together with the resulting uplink package.
The worker loads the envelope from `path` (asserting its type),
restores the snapshot at `envelope.state_path` if that file exists
(asserting its type) and otherwise seeds afresh from `envelope.seed`
and the device, trains, overwrites `path` with the package, overwrites
`envelope.state_path` with the post-training random state, and returns
`path`. -/
def process_client
    (trainFn : RandomState → FedAvgDiskSharedData → RandomState × FedAvgUplinkPackage)
    (fs : FS) (path : ℕ) (device : ℕ) : Except ProcError (FS × ℕ) :=
  match fs path with
  | none => .error .loadError
  | some (.uplink _) => .error .assertError
  | some (.rstate _) => .error .assertError
  | some (.shared data) =>
    match fs data.state_path with
    | some (.rstate st) =>
        let r := trainFn st data
        .ok (fsWrite (fsWrite fs path (.uplink r.2)) data.state_path (.rstate r.1), path)
    | some _ => .error .assertError
    | none =>
        let r := trainFn (seed_everything data.seed device) data
        .ok (fsWrite (fsWrite fs path (.uplink r.2)) data.state_path (.rstate r.1), path)

/-- The random state `process_client` starts training from: the
persisted snapshot at `data.state_path` when one exists there, else a
fresh stream seeded from `data.seed` and the device (`none` when the
file exists but is not a snapshot, in which case the assertion fails). -/
def initialRandomState (fs : FS) (data : FedAvgDiskSharedData)
    (device : ℕ) : Option RandomState :=
  match fs data.state_path with
  | some (.rstate st) => some st
  | some _ => none
  | none => some (seed_everything data.seed device)

/-- The file system `process_client` leaves behind on success: the
uplink package at the envelope path, then the post-training random
state at the envelope's state path. -/
def processClientFS
    (trainFn : RandomState → FedAvgDiskSharedData → RandomState × FedAvgUplinkPackage)
    (fs : FS) (path : ℕ) (data : FedAvgDiskSharedData) (r0 : RandomState) : FS :=
  fsWrite (fsWrite fs path (.uplink (trainFn r0 data).2))
    data.state_path (.rstate (trainFn r0 data).1)

/-- State of a `FedAvgParallelClientTrainer` (fedavg.py, lines 465-535)
as far as its uplink cache is concerned (the pool and directory wiring
live in the `ParallelClientTrainer` base class and the filesystem). -/
structure FedAvgParallelClientTrainer where
  state_dir : ℕ
  seed : ℕ
  cache : List FedAvgUplinkPackage

/-- `FedAvgParallelClientTrainer.uplink_package` (fedavg.py, lines
658-667): identical drain-and-copy contract as the serial trainer. -/
def FedAvgParallelClientTrainer.uplink_package
    (t : FedAvgParallelClientTrainer) :
    FedAvgParallelClientTrainer × List FedAvgUplinkPackage :=
  ({ t with cache := [] }, t.cache)

/-! ## Helper lemmas -/

theorem aggregate_cons (p0 : List TVal) (rest : List (List TVal)) (wlist : List ℤ) :
    aggregate (p0 :: rest) wlist =
      if rest.all (fun p => p.length = p0.length) then
        if wlist.length = (p0 :: rest).length then
          Except.ok ((List.range p0.length).map (fun j =>
            tsum (List.zipWith (fun p w => tmul (p.getD j .nan) w) (p0 :: rest)
              (wlist.map (fun w => intDiv w wlist.sum)))))
        else if wlist.length = 1 then
          Except.ok ((List.range p0.length).map (fun j =>
            tsum ((p0 :: rest).map (fun p => tmul (p.getD j .nan)
              ((wlist.map (fun w => intDiv w wlist.sum)).getD 0 .nan)))))
        else if (p0 :: rest).length = 1 then
          Except.ok (p0.map (fun x =>
            tsum ((wlist.map (fun w => intDiv w wlist.sum)).map (fun w => tmul x w))))
        else .error .broadcastError
      else .error .stackError := rfl

theorem pyInt_eq_zero (q : ℚ) (h0 : 0 ≤ q) (h1 : q < 1) : pyInt q = 0 := by
  have hd : (0 : ℤ) < (q.den : ℤ) := Int.natCast_pos.2 q.pos
  have hn : (0 : ℤ) ≤ q.num := Rat.num_nonneg.2 h0
  have hlt : q.num < (q.den : ℤ) := by
    have hq : (q.num : ℚ) / (q.den : ℚ) < 1 := by
      rw [Rat.num_div_den]; exact h1
    have hdq : (0 : ℚ) < (q.den : ℚ) := by exact_mod_cast hd
    have := (div_lt_one hdq).1 hq
    exact_mod_cast this
  unfold pyInt
  rw [Int.tdiv_eq_ediv hn hd.le]
  exact Int.ediv_eq_zero_of_lt hn hlt

theorem load_quota_zero (s : FedAvgServerHandler)
    (hs : s.num_clients_per_round = 0) (p : FedAvgUplinkPackage) :
    s.load p = ({ s with client_buffer_cache := s.client_buffer_cache ++ [p] },
      Except.ok false) := by
  unfold FedAvgServerHandler.load
  rw [hs, if_neg (by simp; omega)]

theorem loadAll_quota_zero (ps : List FedAvgUplinkPackage) :
    ∀ s : FedAvgServerHandler, s.num_clients_per_round = 0 →
      loadAll s ps = { s with client_buffer_cache := s.client_buffer_cache ++ ps } := by
  induction ps with
  | nil => intro s _; simp [loadAll]
  | cons p rest ih =>
      intro s hs
      have h1 : (s.load p).1 =
          { s with client_buffer_cache := s.client_buffer_cache ++ [p] } := by
        rw [load_quota_zero s hs p]
      show loadAll (s.load p).1 rest = _
      rw [h1, ih { s with client_buffer_cache := s.client_buffer_cache ++ [p] } hs]
      simp

/-! ## Claim theorems -/

/-- C2: `load` appends the payload to the buffer; if the buffer length
then equals the quota it aggregates, increments the round, clears the
buffer and returns true, else it returns false.  Concretely, with
`num_clients = 10` and `sample_ratio = 0.3` the quota is 3, the first
two `load` calls return false with the round staying 0, and the third
returns true with the round becoming 1 and the buffer empty. -/
theorem load_spec (s : FedAvgServerHandler) (p : FedAvgUplinkPackage) :
    ((((s.client_buffer_cache ++ [p]).length : ℤ) ≠ s.num_clients_per_round →
        s.load p = ({ s with client_buffer_cache := s.client_buffer_cache ++ [p] },
          Except.ok false)) ∧
      (∀ v, (((s.client_buffer_cache ++ [p]).length : ℤ) = s.num_clients_per_round) →
        FedAvgServerHandler.global_update (s.client_buffer_cache ++ [p]) = Except.ok v →
        s.load p = ({ s with model := v, round := s.round + 1, client_buffer_cache := [] },
          Except.ok true))) ∧
    ((FedAvgServerHandler.init 5 10 (3/10) [TVal.fin 0]).num_clients_per_round = 3 ∧
      (((FedAvgServerHandler.init 5 10 (3/10) [TVal.fin 0]).load
          ⟨[TVal.fin 1], 1, none⟩).2 = Except.ok false ∧
        ((FedAvgServerHandler.init 5 10 (3/10) [TVal.fin 0]).load
          ⟨[TVal.fin 1], 1, none⟩).1.round = 0) ∧
      ((((FedAvgServerHandler.init 5 10 (3/10) [TVal.fin 0]).load
          ⟨[TVal.fin 1], 1, none⟩).1.load ⟨[TVal.fin 1], 1, none⟩).2 =
        Except.ok false ∧
        (((FedAvgServerHandler.init 5 10 (3/10) [TVal.fin 0]).load
          ⟨[TVal.fin 1], 1, none⟩).1.load ⟨[TVal.fin 1], 1, none⟩).1.round = 0) ∧
      ((((FedAvgServerHandler.init 5 10 (3/10) [TVal.fin 0]).load
          ⟨[TVal.fin 1], 1, none⟩).1.load ⟨[TVal.fin 1], 1, none⟩).1.load
          ⟨[TVal.fin 1], 1, none⟩).2 = Except.ok true ∧
      ((((FedAvgServerHandler.init 5 10 (3/10) [TVal.fin 0]).load
          ⟨[TVal.fin 1], 1, none⟩).1.load ⟨[TVal.fin 1], 1, none⟩).1.load
          ⟨[TVal.fin 1], 1, none⟩).1.round = 1 ∧
      ((((FedAvgServerHandler.init 5 10 (3/10) [TVal.fin 0]).load
          ⟨[TVal.fin 1], 1, none⟩).1.load ⟨[TVal.fin 1], 1, none⟩).1.load
          ⟨[TVal.fin 1], 1, none⟩).1.client_buffer_cache = []) := by
  have hinit : FedAvgServerHandler.init 5 10 (3/10) [TVal.fin 0] =
      { global_round := 5, num_clients := 10, sample_ratio := 3/10,
        model := [TVal.fin 0], client_buffer_cache := [],
        num_clients_per_round := 3, round := 0 } := by
    unfold FedAvgServerHandler.init
    congr 1
    norm_num [pyInt]
  rw [hinit]
  refine ⟨⟨?_, ?_⟩, rfl, ⟨rfl, rfl⟩, ⟨rfl, rfl⟩, rfl, rfl, rfl⟩
  · intro h
    unfold FedAvgServerHandler.load
    rw [if_neg h]
  · intro v hlen hagg
    unfold FedAvgServerHandler.load
    rw [if_pos hlen, hagg]

/-- Witness for C2 at a concrete non-triggering state. -/
theorem load_spec_witness :
    ((([(⟨[TVal.fin 2], 1, none⟩ : FedAvgUplinkPackage)] ++
        [(⟨[TVal.fin 1], 1, none⟩ : FedAvgUplinkPackage)]).length : ℤ) ≠ 3) ∧
    FedAvgServerHandler.load
      { global_round := 5, num_clients := 10, sample_ratio := 3/10,
        model := [TVal.fin 0], client_buffer_cache := [⟨[TVal.fin 2], 1, none⟩],
        num_clients_per_round := 3, round := 0 } ⟨[TVal.fin 1], 1, none⟩ =
      ({ global_round := 5, num_clients := 10, sample_ratio := 3/10,
          model := [TVal.fin 0],
          client_buffer_cache := [⟨[TVal.fin 2], 1, none⟩, ⟨[TVal.fin 1], 1, none⟩],
          num_clients_per_round := 3, round := 0 }, Except.ok false) :=
  ⟨by decide,
    ((load_spec
      { global_round := 5, num_clients := 10, sample_ratio := 3/10,
        model := [TVal.fin 0], client_buffer_cache := [⟨[TVal.fin 2], 1, none⟩],
        num_clients_per_round := 3, round := 0 } ⟨[TVal.fin 1], 1, none⟩).1).1
      (by decide)⟩

/-- C10: constructing the coordinator with `num_clients * sample_ratio`
in `[0, 1)` makes the quota `int(num_clients * sample_ratio) = 0`, and
then every `load` call returns false, the round stays 0 forever, and
the buffer grows without bound (one entry per call), because the
post-append buffer length is at least 1 and is compared with the quota
for equality. -/
theorem quota_zero_starvation (g nc : ℕ) (r : ℚ) (m : List TVal)
    (ps : List FedAvgUplinkPackage) (p : FedAvgUplinkPackage)
    (h0 : 0 ≤ (nc : ℚ) * r) (h1 : (nc : ℚ) * r < 1) :
    (FedAvgServerHandler.init g nc r m).num_clients_per_round = 0 ∧
    ((loadAll (FedAvgServerHandler.init g nc r m) ps).load p).2 = Except.ok false ∧
    (loadAll (FedAvgServerHandler.init g nc r m) ps).round = 0 ∧
    (loadAll (FedAvgServerHandler.init g nc r m) ps).client_buffer_cache = ps := by
  have hq : (FedAvgServerHandler.init g nc r m).num_clients_per_round = 0 :=
    pyInt_eq_zero _ h0 h1
  have hall := loadAll_quota_zero ps (FedAvgServerHandler.init g nc r m) hq
  refine ⟨hq, ?_, ?_, ?_⟩
  · rw [hall, load_quota_zero]
    exact hq
  · rw [hall]
    rfl
  · rw [hall]
    rfl

/-- Witness for C10 with ten clients and a zero sample ratio. -/
theorem quota_zero_starvation_witness :
    (FedAvgServerHandler.init 3 10 0 [TVal.fin 0]).num_clients_per_round = 0 ∧
    ((loadAll (FedAvgServerHandler.init 3 10 0 [TVal.fin 0])
        [⟨[TVal.fin 1], 1, none⟩, ⟨[TVal.fin 2], 1, none⟩]).load
      ⟨[TVal.fin 3], 1, none⟩).2 = Except.ok false ∧
    (loadAll (FedAvgServerHandler.init 3 10 0 [TVal.fin 0])
      [⟨[TVal.fin 1], 1, none⟩, ⟨[TVal.fin 2], 1, none⟩]).round = 0 ∧
    (loadAll (FedAvgServerHandler.init 3 10 0 [TVal.fin 0])
      [⟨[TVal.fin 1], 1, none⟩, ⟨[TVal.fin 2], 1, none⟩]).client_buffer_cache =
      [⟨[TVal.fin 1], 1, none⟩, ⟨[TVal.fin 2], 1, none⟩] :=
  quota_zero_starvation 3 10 0 [TVal.fin 0]
    [⟨[TVal.fin 1], 1, none⟩, ⟨[TVal.fin 2], 1, none⟩] ⟨[TVal.fin 3], 1, none⟩
    (by simp) (by simp)

/-- C7: after a `load` call that returned true, the downlink package
holds exactly the parameters produced by `aggregate` on the parameter
vectors and data sizes of the packages buffered in that round
(serialization and deserialization being mutually inverse in this
embedding). -/
theorem downlink_after_trigger (s : FedAvgServerHandler)
    (p : FedAvgUplinkPackage) (h : (s.load p).2 = Except.ok true) :
    aggregate ((s.client_buffer_cache ++ [p]).map (fun e => e.model_parameters))
        ((s.client_buffer_cache ++ [p]).map (fun e => e.data_size)) =
      Except.ok ((s.load p).1.downlink_package).model_parameters := by
  unfold FedAvgServerHandler.load at h
  by_cases hlen : (((s.client_buffer_cache ++ [p]).length : ℤ) = s.num_clients_per_round)
  · rw [if_pos hlen] at h
    rcases hagg : FedAvgServerHandler.global_update (s.client_buffer_cache ++ [p]) with e | v
    · rw [hagg] at h
      simp at h
    · show aggregate _ _ = Except.ok (s.load p).1.model
      have hv : (s.load p).1.model = v := by
        show (FedAvgServerHandler.load s p).1.model = v
        unfold FedAvgServerHandler.load
        rw [if_pos hlen, hagg]
      rw [hv]
      simpa [FedAvgServerHandler.global_update] using hagg
  · rw [if_neg hlen] at h
    simp at h

/-- Witness for C7 at a quota-1 coordinator. -/
theorem downlink_after_trigger_witness :
    (FedAvgServerHandler.load
      { global_round := 5, num_clients := 10, sample_ratio := 1/10,
        model := [TVal.fin 0], client_buffer_cache := [],
        num_clients_per_round := 1, round := 0 } ⟨[TVal.fin 2], 3, none⟩).2 =
      Except.ok true ∧
    aggregate [[TVal.fin 2]] [3] =
      Except.ok ((FedAvgServerHandler.load
        { global_round := 5, num_clients := 10, sample_ratio := 1/10,
          model := [TVal.fin 0], client_buffer_cache := [],
          num_clients_per_round := 1, round := 0 }
        ⟨[TVal.fin 2], 3, none⟩).1.downlink_package).model_parameters :=
  ⟨rfl, downlink_after_trigger
    { global_round := 5, num_clients := 10, sample_ratio := 1/10,
      model := [TVal.fin 0], client_buffer_cache := [],
      num_clients_per_round := 1, round := 0 } ⟨[TVal.fin 2], 3, none⟩ rfl⟩

/-- C8: `uplink_package` (serial and parallel trainers) returns the
cache contents and leaves the cache empty, so a second immediate call
returns the empty list; the returned value is a copy in the sense of
value semantics, unaffected by any later trainer state. -/
theorem uplink_package_drain {M : Type} (t : FedAvgSerialClientTrainer M)
    (tp : FedAvgParallelClientTrainer) :
    (t.uplink_package.2 = t.cache ∧
      t.uplink_package.1.cache = [] ∧
      t.uplink_package.1.model = t.model ∧
      t.uplink_package.1.uplink_package.2 = []) ∧
    (tp.uplink_package.2 = tp.cache ∧
      tp.uplink_package.1.cache = [] ∧
      tp.uplink_package.1.uplink_package.2 = []) :=
  ⟨⟨rfl, rfl, rfl, rfl⟩, ⟨rfl, rfl, rfl⟩⟩

theorem local_process_foldl {M : Type}
    (trainFn : M → List TVal → ℕ → M × FedAvgUplinkPackage)
    (evalFn : M → ℕ → ℚ × ℚ) (params : List TVal) :
    ∀ (cids : List ℕ) (t : FedAvgSerialClientTrainer M),
      (cids.foldl (localStep trainFn evalFn params) t).cache =
        t.cache ++ clientPackages trainFn evalFn t.model params cids := by
  intro cids
  induction cids with
  | nil => intro t; simp [clientPackages]
  | cons c rest ih =>
      intro t
      show (rest.foldl (localStep trainFn evalFn params)
        (localStep trainFn evalFn params t c)).cache = _
      rw [ih (localStep trainFn evalFn params t c)]
      simp [localStep, clientPackages, packageFor]

theorem clientPackages_length {M : Type}
    (trainFn : M → List TVal → ℕ → M × FedAvgUplinkPackage)
    (evalFn : M → ℕ → ℚ × ℚ) (params : List TVal) :
    ∀ (cids : List ℕ) (m : M),
      (clientPackages trainFn evalFn m params cids).length = cids.length := by
  intro cids
  induction cids with
  | nil => intro m; rfl
  | cons c rest ih => intro m; simp [clientPackages, ih]

theorem clientPackages_getD {M : Type}
    (trainFn : M → List TVal → ℕ → M × FedAvgUplinkPackage)
    (evalFn : M → ℕ → ℚ × ℚ) (params : List TVal) :
    ∀ (cids : List ℕ) (m : M) (i : ℕ), i < cids.length →
      (clientPackages trainFn evalFn m params cids).getD i ⟨[], 0, none⟩ =
        packageFor trainFn evalFn (modelAfter trainFn m params (cids.take i))
          params (cids.getD i 0) := by
  intro cids
  induction cids with
  | nil => intro m i hi; simp at hi
  | cons c rest ih =>
      intro m i hi
      cases i with
      | zero => rfl
      | succ j =>
          have hj : j < rest.length := by simpa using hi
          show (clientPackages trainFn evalFn (trainFn m params c).1 params rest).getD j _ = _
          rw [ih (trainFn m params c).1 j hj]
          rfl

/-- C9: the Serial Executor's `local_process` handles client ids in
exactly the given order: it appends one package per id to the cache, in
that order, and the `i`-th appended package is the one obtained by
training client `cid_list[i]` (from the model state left by the
previous clients) with `loss`/`acc` metadata from evaluating the
trained model on that client's validation data. -/
theorem local_process_order {M : Type}
    (trainFn : M → List TVal → ℕ → M × FedAvgUplinkPackage)
    (evalFn : M → ℕ → ℚ × ℚ)
    (t : FedAvgSerialClientTrainer M) (payload : FedAvgDownlinkPackage)
    (cid_list : List ℕ) :
    (t.local_process trainFn evalFn payload cid_list).cache =
      t.cache ++
        clientPackages trainFn evalFn t.model payload.model_parameters cid_list ∧
    (clientPackages trainFn evalFn t.model payload.model_parameters cid_list).length =
      cid_list.length ∧
    (∀ i, i < cid_list.length →
      (clientPackages trainFn evalFn t.model payload.model_parameters cid_list).getD i
          ⟨[], 0, none⟩ =
        packageFor trainFn evalFn
          (modelAfter trainFn t.model payload.model_parameters (cid_list.take i))
          payload.model_parameters (cid_list.getD i 0)) :=
  ⟨local_process_foldl trainFn evalFn payload.model_parameters cid_list t,
    clientPackages_length trainFn evalFn payload.model_parameters cid_list t.model,
    fun i hi =>
      clientPackages_getD trainFn evalFn payload.model_parameters cid_list t.model i hi⟩

/-- Witness for C9 with `cid_list = [3, 1, 2]` and concrete routines. -/
theorem local_process_order_witness :
    (FedAvgSerialClientTrainer.local_process ⟨0, []⟩
        (fun (m : ℕ) (ps : List TVal) (c : ℕ) => (m + c, ⟨ps, (c : ℤ), none⟩))
        (fun (m : ℕ) (c : ℕ) => ((m : ℚ), (c : ℚ)))
        ⟨[TVal.fin 1]⟩ [3, 1, 2]).cache =
      [] ++ clientPackages
        (fun (m : ℕ) (ps : List TVal) (c : ℕ) => (m + c, ⟨ps, (c : ℤ), none⟩))
        (fun (m : ℕ) (c : ℕ) => ((m : ℚ), (c : ℚ))) 0 [TVal.fin 1] [3, 1, 2] ∧
    (clientPackages
        (fun (m : ℕ) (ps : List TVal) (c : ℕ) => (m + c, ⟨ps, (c : ℤ), none⟩))
        (fun (m : ℕ) (c : ℕ) => ((m : ℚ), (c : ℚ))) 0 [TVal.fin 1] [3, 1, 2]).length =
      3 ∧
    (clientPackages
        (fun (m : ℕ) (ps : List TVal) (c : ℕ) => (m + c, ⟨ps, (c : ℤ), none⟩))
        (fun (m : ℕ) (c : ℕ) => ((m : ℚ), (c : ℚ))) 0 [TVal.fin 1] [3, 1, 2]).getD 1
        ⟨[], 0, none⟩ =
      packageFor
        (fun (m : ℕ) (ps : List TVal) (c : ℕ) => (m + c, ⟨ps, (c : ℤ), none⟩))
        (fun (m : ℕ) (c : ℕ) => ((m : ℚ), (c : ℚ)))
        (modelAfter (fun (m : ℕ) (ps : List TVal) (c : ℕ) => (m + c, ⟨ps, (c : ℤ), none⟩))
          0 [TVal.fin 1] [3]) [TVal.fin 1] 1 :=
  ⟨(local_process_order _ _ ⟨0, []⟩ ⟨[TVal.fin 1]⟩ [3, 1, 2]).1,
    (local_process_order _ _ ⟨0, []⟩ ⟨[TVal.fin 1]⟩ [3, 1, 2]).2.1,
    (local_process_order
      (fun (m : ℕ) (ps : List TVal) (c : ℕ) => (m + c, ⟨ps, (c : ℤ), none⟩))
      (fun (m : ℕ) (c : ℕ) => ((m : ℚ), (c : ℚ)))
      ⟨0, []⟩ ⟨[TVal.fin 1]⟩ [3, 1, 2]).2.2 1 (by decide)⟩

/-- C6: the worker entry point `process_client`, given the task
envelope stored at `path`, starts from the persisted random-state
snapshot at `envelope.state_path` when one exists there and otherwise
from a fresh stream seeded from `envelope.seed` and the device (this
case split is `initialRandomState`); it then overwrites `path` with the
resulting uplink package, overwrites `envelope.state_path` with the
post-training random state, and returns `path`. -/
theorem process_client_spec
    (trainFn : RandomState → FedAvgDiskSharedData → RandomState × FedAvgUplinkPackage)
    (fs : FS) (path device : ℕ) (data : FedAvgDiskSharedData) (r0 : RandomState)
    (hp : fs path = some (FileData.shared data))
    (hr : initialRandomState fs data device = some r0) :
    process_client trainFn fs path device =
      Except.ok (processClientFS trainFn fs path data r0, path) ∧
    processClientFS trainFn fs path data r0 data.state_path =
      some (FileData.rstate (trainFn r0 data).1) ∧
    (path ≠ data.state_path →
      processClientFS trainFn fs path data r0 path =
        some (FileData.uplink (trainFn r0 data).2)) := by
  refine ⟨?_, ?_, ?_⟩
  · unfold process_client
    rw [hp]
    unfold initialRandomState at hr
    rcases hsp : fs data.state_path with _ | f
    · rw [hsp] at hr
      simp only [Option.some.injEq] at hr
      subst hr
      show (match fs data.state_path with
        | some (FileData.rstate st) =>
            Except.ok (fsWrite (fsWrite fs path (FileData.uplink (trainFn st data).2))
              data.state_path (FileData.rstate (trainFn st data).1), path)
        | some _ => Except.error ProcError.assertError
        | none =>
            Except.ok (fsWrite (fsWrite fs path
                (FileData.uplink (trainFn (seed_everything data.seed device) data).2))
              data.state_path
              (FileData.rstate (trainFn (seed_everything data.seed device) data).1),
              path) : Except ProcError (FS × ℕ)) = _
      rw [hsp]
      rfl
    · rcases f with d | p | st
      · rw [hsp] at hr; simp at hr
      · rw [hsp] at hr; simp at hr
      · rw [hsp] at hr
        simp only [Option.some.injEq] at hr
        subst hr
        show (match fs data.state_path with
          | some (FileData.rstate st) =>
              Except.ok (fsWrite (fsWrite fs path (FileData.uplink (trainFn st data).2))
                data.state_path (FileData.rstate (trainFn st data).1), path)
          | some _ => Except.error ProcError.assertError
          | none =>
              Except.ok (fsWrite (fsWrite fs path
                  (FileData.uplink (trainFn (seed_everything data.seed device) data).2))
                data.state_path
                (FileData.rstate (trainFn (seed_everything data.seed device) data).1),
                path) : Except ProcError (FS × ℕ)) = _
        rw [hsp]
        rfl
  · unfold processClientFS fsWrite
    simp
  · intro hne
    unfold processClientFS fsWrite
    simp [hne]

/-- Witness for C6 on a concrete file system with no prior snapshot. -/
theorem process_client_spec_witness :
    process_client (fun st _ => (st, ⟨[TVal.fin 1], 2, none⟩))
        (fun q => if q = 0 then
          some (FileData.shared ⟨0, 1, 4, 1, 7, 42, ⟨[TVal.fin 0]⟩, 1⟩) else none)
        0 3 =
      Except.ok (processClientFS (fun st _ => (st, ⟨[TVal.fin 1], 2, none⟩))
        (fun q => if q = 0 then
          some (FileData.shared ⟨0, 1, 4, 1, 7, 42, ⟨[TVal.fin 0]⟩, 1⟩) else none)
        0 ⟨0, 1, 4, 1, 7, 42, ⟨[TVal.fin 0]⟩, 1⟩ (seed_everything 42 3), 0) ∧
    processClientFS (fun st _ => (st, ⟨[TVal.fin 1], 2, none⟩))
        (fun q => if q = 0 then
          some (FileData.shared ⟨0, 1, 4, 1, 7, 42, ⟨[TVal.fin 0]⟩, 1⟩) else none)
        0 ⟨0, 1, 4, 1, 7, 42, ⟨[TVal.fin 0]⟩, 1⟩ (seed_everything 42 3) 1 =
      some (FileData.rstate (seed_everything 42 3)) ∧
    processClientFS (fun st _ => (st, ⟨[TVal.fin 1], 2, none⟩))
        (fun q => if q = 0 then
          some (FileData.shared ⟨0, 1, 4, 1, 7, 42, ⟨[TVal.fin 0]⟩, 1⟩) else none)
        0 ⟨0, 1, 4, 1, 7, 42, ⟨[TVal.fin 0]⟩, 1⟩ (seed_everything 42 3) 0 =
      some (FileData.uplink ⟨[TVal.fin 1], 2, none⟩) :=
  ⟨(process_client_spec (fun st _ => (st, ⟨[TVal.fin 1], 2, none⟩))
      (fun q => if q = 0 then
        some (FileData.shared ⟨0, 1, 4, 1, 7, 42, ⟨[TVal.fin 0]⟩, 1⟩) else none)
      0 3 ⟨0, 1, 4, 1, 7, 42, ⟨[TVal.fin 0]⟩, 1⟩ (seed_everything 42 3) rfl rfl).1,
    (process_client_spec (fun st _ => (st, ⟨[TVal.fin 1], 2, none⟩))
      (fun q => if q = 0 then
        some (FileData.shared ⟨0, 1, 4, 1, 7, 42, ⟨[TVal.fin 0]⟩, 1⟩) else none)
      0 3 ⟨0, 1, 4, 1, 7, 42, ⟨[TVal.fin 0]⟩, 1⟩ (seed_everything 42 3) rfl rfl).2.1,
    (process_client_spec (fun st _ => (st, ⟨[TVal.fin 1], 2, none⟩))
      (fun q => if q = 0 then
        some (FileData.shared ⟨0, 1, 4, 1, 7, 42, ⟨[TVal.fin 0]⟩, 1⟩) else none)
      0 3 ⟨0, 1, 4, 1, 7, 42, ⟨[TVal.fin 0]⟩, 1⟩ (seed_everything 42 3) rfl rfl).2.2
      (by decide)⟩

/-- C3 counterexample: with a single parameter vector and the single
weight `0`, the weight sum is zero, yet `aggregate` does not fail: the
torch true division `0 / 0` yields NaN and the call silently returns a
NaN result. -/
theorem aggregate_zero_sum_counterexample :
    aggregate [[TVal.fin 1]] [0] = Except.ok [TVal.nan] ∧
    (aggregate [[TVal.fin 1]] [0]).isOk = true :=
  ⟨rfl, rfl⟩

/-- C3 amended: for nonempty, uniformly-shaped parameters, `aggregate`
surfaces an error exactly when the two list lengths are
broadcast-incompatible (they differ and neither is 1); when the lengths
agree it never raises — in particular a zero weight sum produces a
silent NaN/infinite result rather than an error. -/
theorem aggregate_error_behavior (plist : List (List TVal)) (wlist : List ℤ)
    (d : ℕ) (hne : plist ≠ []) (hshape : ∀ p ∈ plist, p.length = d) :
    (wlist.length ≠ plist.length → wlist.length ≠ 1 → plist.length ≠ 1 →
      aggregate plist wlist = Except.error AggError.broadcastError) ∧
    (wlist.length = plist.length → (aggregate plist wlist).isOk = true) := by
  match plist, hne with
  | p0 :: rest, _ =>
    have hall : (rest.all (fun p => p.length = p0.length)) = true := by
      rw [List.all_eq_true]
      intro p hp
      have h1 : p.length = d := hshape p (List.mem_cons_of_mem p0 hp)
      have h2 : p0.length = d := hshape p0 (List.mem_cons_self p0 rest)
      simp [h1, h2]
    constructor
    · intro hmn hm1 hn1
      rw [aggregate_cons, if_pos hall, if_neg hmn, if_neg hm1, if_neg hn1]
    · intro hmn
      rw [aggregate_cons, if_pos hall, if_pos hmn]
      rfl

/-- Witness for C3's amended claim: mismatched lengths 3 vs 2 raise the
broadcast error, while matched lengths with weight sum `1 + (-1) = 0`
return successfully. -/
theorem aggregate_error_behavior_witness :
    aggregate [[TVal.fin 1], [TVal.fin 2]] [1, 2, 3] =
      Except.error AggError.broadcastError ∧
    (aggregate [[TVal.fin 1], [TVal.fin 2]] [1, -1]).isOk = true :=
  ⟨(aggregate_error_behavior [[TVal.fin 1], [TVal.fin 2]] [1, 2, 3] 1
      (by decide) (by decide)).1 (by decide) (by decide) (by decide),
    (aggregate_error_behavior [[TVal.fin 1], [TVal.fin 2]] [1, -1] 1
      (by decide) (by decide)).2 (by decide)⟩

theorem foldl_tadd_fin (l : List ℚ) :
    ∀ a : ℚ, List.foldl tadd (TVal.fin a) (l.map TVal.fin) = TVal.fin (a + l.sum) := by
  induction l with
  | nil => intro a; simp
  | cons x xs ih =>
      intro a
      show List.foldl tadd (tadd (TVal.fin a) (TVal.fin x)) (xs.map TVal.fin) = _
      rw [show tadd (TVal.fin a) (TVal.fin x) = TVal.fin (a + x) from rfl, ih (a + x)]
      rw [List.sum_cons, add_assoc]

theorem tsum_map_fin (l : List ℚ) : tsum (l.map TVal.fin) = TVal.fin l.sum := by
  unfold tsum
  rw [foldl_tadd_fin l 0, zero_add]

theorem zipWith_tmul_fin (j : ℕ) (W : ℤ) (hW : W ≠ 0) :
    ∀ (ps : List (List ℚ)) (ws : List ℤ), (∀ p ∈ ps, j < p.length) →
      List.zipWith (fun p w => tmul (p.getD j .nan) w) (ps.map (List.map TVal.fin))
          (ws.map (fun w => intDiv w W)) =
        (List.zipWith (fun (p : List ℚ) (w : ℤ) => p.getD j 0 * ((w : ℚ) / (W : ℚ))) ps ws).map
          TVal.fin := by
  intro ps
  induction ps with
  | nil => intro ws _; simp
  | cons p ps' ih =>
      intro ws hmem
      cases ws with
      | nil => simp
      | cons w ws' =>
          have hj : j < p.length := hmem p (List.mem_cons_self p ps')
          have hget : (p.map TVal.fin).getD j .nan = TVal.fin (p.getD j 0) := by
            rw [List.getD_eq_getElem?_getD, List.getElem?_map,
              List.getElem?_eq_getElem hj, List.getD_eq_getElem?_getD,
              List.getElem?_eq_getElem hj]
            rfl
          have hdiv : intDiv w W = TVal.fin ((w : ℚ) / (W : ℚ)) := by
            simp [intDiv, hW]
          simp only [List.map_cons, List.zipWith_cons_cons]
          rw [hget, hdiv, ih ws' (fun q hq => hmem q (List.mem_cons_of_mem p hq))]
          rfl

theorem zipWith_sum_div (W : ℚ) (j : ℕ) :
    ∀ (ps : List (List ℚ)) (ws : List ℤ),
      (List.zipWith (fun (p : List ℚ) (w : ℤ) => p.getD j 0 * ((w : ℚ) / W)) ps ws).sum =
        (List.zipWith (fun (p : List ℚ) (w : ℤ) => p.getD j 0 * (w : ℚ)) ps ws).sum / W := by
  intro ps
  induction ps with
  | nil => intro ws; simp
  | cons p ps' ih =>
      intro ws
      cases ws with
      | nil => simp
      | cons w ws' =>
          rw [List.zipWith_cons_cons, List.zipWith_cons_cons, List.sum_cons,
            List.sum_cons, ih ws', add_div, mul_div_assoc]

theorem randomSampleAux_succ (pick : ℕ → ℕ) (n : ℕ) (pool : List ℕ) :
    randomSampleAux pick (n + 1) pool =
      pool.getD (pick n % pool.length) 0 ::
        randomSampleAux pick n (pool.eraseIdx (pick n % pool.length)) := rfl

theorem randomSampleAux_spec (pick : ℕ → ℕ) :
    ∀ (k : ℕ) (pool : List ℕ), pool.Nodup → k ≤ pool.length →
      (randomSampleAux pick k pool).length = k ∧
      (randomSampleAux pick k pool).Nodup ∧
      ∀ x ∈ randomSampleAux pick k pool, x ∈ pool := by
  intro k
  induction k with
  | zero =>
      intro pool _ _
      exact ⟨rfl, List.nodup_nil, by intro x hx; simp [randomSampleAux] at hx⟩
  | succ n ih =>
      intro pool hnd hk
      have hpos : 0 < pool.length := lt_of_lt_of_le (Nat.succ_pos n) hk
      have hilt : pick n % pool.length < pool.length := Nat.mod_lt _ hpos
      have hgd : pool.getD (pick n % pool.length) 0 = pool[pick n % pool.length] :=
        List.getD_eq_getElem pool 0 hilt
      have hsub : (pool.eraseIdx (pick n % pool.length)).Sublist pool :=
        List.eraseIdx_sublist pool (pick n % pool.length)
      have hnd' : (pool.eraseIdx (pick n % pool.length)).Nodup := hsub.nodup hnd
      have hlen' : (pool.eraseIdx (pick n % pool.length)).length = pool.length - 1 := by
        rw [List.length_eraseIdx, if_pos hilt]
      obtain ⟨ihlen, ihnd, ihsub⟩ :=
        ih (pool.eraseIdx (pick n % pool.length)) hnd' (by omega)
      refine ⟨?_, ?_, ?_⟩
      · rw [randomSampleAux_succ]
        simp [ihlen]
      · rw [randomSampleAux_succ]
        refine List.nodup_cons.2 ⟨?_, ihnd⟩
        intro hmem
        have hx := ihsub _ hmem
        rw [hgd] at hx
        rcases List.mem_eraseIdx_iff_getElem.1 hx with ⟨i, hi, hne, heq⟩
        exact hne ((hnd.getElem_inj_iff).1 heq)
      · rw [randomSampleAux_succ]
        intro x hx
        rcases List.mem_cons.1 hx with rfl | hx'
        · rw [hgd]
          exact List.getElem_mem hilt
        · exact hsub.subset (ihsub x hx')

/-- C5: for every outcome of the underlying random source,
`sample_clients` returns exactly `num_clients_per_round` pairwise
distinct client ids, each in `[0, num_clients)`, sorted in ascending
order. -/
theorem sample_clients_spec (s : FedAvgServerHandler) (pick : ℕ → ℕ)
    (hk0 : 0 ≤ s.num_clients_per_round)
    (hkn : s.num_clients_per_round.toNat ≤ s.num_clients) :
    (s.sample_clients pick).isSome = true ∧
    ((s.sample_clients pick).getD []).length = s.num_clients_per_round.toNat ∧
    ((s.sample_clients pick).getD []).Nodup ∧
    (((s.sample_clients pick).getD []).all (fun x => x < s.num_clients)) = true ∧
    ((s.sample_clients pick).getD []).Sorted (fun a b => a ≤ b) := by
  have hsome : s.sample_clients pick =
      some ((randomSampleAux pick s.num_clients_per_round.toNat
        (List.range s.num_clients)).mergeSort (fun a b => a ≤ b)) := by
    unfold FedAvgServerHandler.sample_clients randomSample
    rw [if_pos (by simpa using hkn)]
    rfl
  obtain ⟨hlen, hnd, hsub⟩ := randomSampleAux_spec pick
    s.num_clients_per_round.toNat (List.range s.num_clients)
    (List.nodup_range _) (by simpa using hkn)
  have hperm := List.mergeSort_perm
    (randomSampleAux pick s.num_clients_per_round.toNat (List.range s.num_clients))
    (fun a b => a ≤ b)
  rw [hsome]
  refine ⟨rfl, ?_, ?_, ?_, ?_⟩
  · simp only [Option.getD_some]
    rw [hperm.length_eq, hlen]
  · simp only [Option.getD_some]
    exact hperm.nodup_iff.2 hnd
  · simp only [Option.getD_some]
    rw [List.all_eq_true]
    intro x hx
    have hx' := hsub x (hperm.subset hx)
    simp only [decide_eq_true_eq]
    exact List.mem_range.1 hx'
  · simp only [Option.getD_some]
    have hs := @List.sorted_mergeSort ℕ (fun a b : ℕ => decide (a ≤ b))
      (by intro a b c h1 h2
          simp only [decide_eq_true_eq] at h1 h2 ⊢
          omega)
      (by intro a b
          simp only [Bool.or_eq_true, decide_eq_true_eq]
          omega)
      (randomSampleAux pick s.num_clients_per_round.toNat (List.range s.num_clients))
    exact hs.imp (fun h => of_decide_eq_true h)

/-- Witness for C5 at a quota-3, ten-client coordinator with a constant
random source. -/
theorem sample_clients_spec_witness :
    ((FedAvgServerHandler.sample_clients
        { global_round := 5, num_clients := 10, sample_ratio := 3/10,
          model := [TVal.fin 0], client_buffer_cache := [],
          num_clients_per_round := 3, round := 0 } (fun _ => 0)).isSome = true) ∧
    ((FedAvgServerHandler.sample_clients
        { global_round := 5, num_clients := 10, sample_ratio := 3/10,
          model := [TVal.fin 0], client_buffer_cache := [],
          num_clients_per_round := 3, round := 0 } (fun _ => 0)).getD []).length =
      (3 : ℤ).toNat ∧
    ((FedAvgServerHandler.sample_clients
        { global_round := 5, num_clients := 10, sample_ratio := 3/10,
          model := [TVal.fin 0], client_buffer_cache := [],
          num_clients_per_round := 3, round := 0 } (fun _ => 0)).getD []).Nodup ∧
    (((FedAvgServerHandler.sample_clients
        { global_round := 5, num_clients := 10, sample_ratio := 3/10,
          model := [TVal.fin 0], client_buffer_cache := [],
          num_clients_per_round := 3, round := 0 } (fun _ => 0)).getD []).all
      (fun x => x < 10)) = true ∧
    ((FedAvgServerHandler.sample_clients
        { global_round := 5, num_clients := 10, sample_ratio := 3/10,
          model := [TVal.fin 0], client_buffer_cache := [],
          num_clients_per_round := 3, round := 0 } (fun _ => 0)).getD []).Sorted
      (fun a b => a ≤ b) :=
  sample_clients_spec
    { global_round := 5, num_clients := 10, sample_ratio := 3/10,
      model := [TVal.fin 0], client_buffer_cache := [],
      num_clients_per_round := 3, round := 0 } (fun _ => 0)
    (by decide) (by decide)

/-- C1: for equal positive lengths and a positive weight sum,
`aggregate` returns elementwise `(Σ_i parameters_i[j] * weight_i) / Σ_i
weight_i`, the weighted average with the weights normalized to sum
to 1. -/
theorem aggregate_weighted_average (d : ℕ) (plist : List (List ℚ))
    (wlist : List ℤ) (hlen : plist.length = wlist.length)
    (hpos : 0 < plist.length) (hshape : ∀ p ∈ plist, p.length = d)
    (hw : 0 < wlist.sum) :
    aggregate (plist.map (fun p => p.map TVal.fin)) wlist =
      Except.ok ((List.range d).map (fun j => TVal.fin
        ((List.zipWith (fun (p : List ℚ) (w : ℤ) => p.getD j 0 * (w : ℚ)) plist wlist).sum /
          ((wlist.sum : ℤ) : ℚ)))) := by
  match plist, hpos with
  | p0 :: rest, _ =>
    have hp0 : p0.length = d := hshape p0 (List.mem_cons_self p0 rest)
    have hall : ((rest.map (List.map TVal.fin)).all
        (fun p => p.length = (List.map TVal.fin p0).length)) = true := by
      rw [List.all_eq_true]
      intro p hp
      rcases List.mem_map.1 hp with ⟨q, hq, rfl⟩
      have h1 : q.length = d := hshape q (List.mem_cons_of_mem _ hq)
      simp [h1, hp0]
    have hm : wlist.length =
        (List.map TVal.fin p0 :: rest.map (List.map TVal.fin)).length := by
      simp only [List.length_cons, List.length_map]
      simpa using hlen.symm
    simp only [List.map_cons]
    rw [aggregate_cons, if_pos hall, if_pos hm]
    congr 1
    rw [List.length_map, hp0]
    apply List.map_congr_left
    intro j hj
    have hjd : j < d := List.mem_range.1 hj
    have hshapes : ∀ p ∈ p0 :: rest, j < p.length := by
      intro p hp
      rw [hshape p hp]
      exact hjd
    have hz := zipWith_tmul_fin j wlist.sum (by exact hw.ne') (p0 :: rest) wlist hshapes
    simp only [List.map_cons] at hz
    rw [hz, tsum_map_fin, zipWith_sum_div ((wlist.sum : ℤ) : ℚ) j (p0 :: rest) wlist]

theorem load_eq_trigger_ok (s : FedAvgServerHandler) (p : FedAvgUplinkPackage)
    (v : List TVal)
    (hl : (((s.client_buffer_cache ++ [p]).length : ℤ) = s.num_clients_per_round))
    (hv : FedAvgServerHandler.global_update (s.client_buffer_cache ++ [p]) =
      Except.ok v) :
    s.load p =
      ({ s with model := v, round := s.round + 1, client_buffer_cache := [] },
        Except.ok true) := by
  unfold FedAvgServerHandler.load
  rw [if_pos hl, hv]

theorem load_eq_trigger_err (s : FedAvgServerHandler) (p : FedAvgUplinkPackage)
    (e : AggError)
    (hl : (((s.client_buffer_cache ++ [p]).length : ℤ) = s.num_clients_per_round))
    (hv : FedAvgServerHandler.global_update (s.client_buffer_cache ++ [p]) =
      Except.error e) :
    s.load p = ({ s with client_buffer_cache := s.client_buffer_cache ++ [p] },
      Except.error e) := by
  unfold FedAvgServerHandler.load
  rw [if_pos hl, hv]

theorem load_eq_no_trigger (s : FedAvgServerHandler) (p : FedAvgUplinkPackage)
    (hl : ¬(((s.client_buffer_cache ++ [p]).length : ℤ) = s.num_clients_per_round)) :
    s.load p = ({ s with client_buffer_cache := s.client_buffer_cache ++ [p] },
      Except.ok false) := by
  unfold FedAvgServerHandler.load
  rw [if_neg hl]

theorem global_update_isOk (buf : List FedAvgUplinkPackage) (d : ℕ)
    (hne : buf ≠ []) (hshape : ∀ p ∈ buf, p.model_parameters.length = d) :
    ∃ v, FedAvgServerHandler.global_update buf = Except.ok v := by
  match buf, hne with
  | b0 :: brest, _ =>
    unfold FedAvgServerHandler.global_update
    simp only [List.map_cons]
    rw [aggregate_cons, if_pos, if_pos]
    · exact ⟨_, rfl⟩
    · simp [List.length_map]
    · rw [List.all_eq_true]
      intro q hq
      rcases List.mem_map.1 hq with ⟨e, he, rfl⟩
      have h1 : e.model_parameters.length = d :=
        hshape e (List.mem_cons_of_mem _ he)
      have h2 : b0.model_parameters.length = d :=
        hshape b0 (List.mem_cons_self _ _)
      simp [h1, h2]

/-- The coordinator states reachable from a freshly constructed handler
with positive quota by `load` calls with well-formed payloads (parameter
vectors of the common serialized length `d`). -/
inductive ReachableHandler (d : ℕ) : FedAvgServerHandler → Prop where
  | init (g nc : ℕ) (r : ℚ) (m : List TVal)
      (hq : 1 ≤ (FedAvgServerHandler.init g nc r m).num_clients_per_round) :
      ReachableHandler d (FedAvgServerHandler.init g nc r m)
  | step (s : FedAvgServerHandler) (p : FedAvgUplinkPackage)
      (hs : ReachableHandler d s) (hp : p.model_parameters.length = d) :
      ReachableHandler d (s.load p).1

theorem reachable_inv (d : ℕ) (s : FedAvgServerHandler)
    (h : ReachableHandler d s) :
    1 ≤ s.num_clients_per_round ∧
    (s.client_buffer_cache.length : ℤ) < s.num_clients_per_round ∧
    ∀ p ∈ s.client_buffer_cache, p.model_parameters.length = d := by
  induction h with
  | init g nc r m hq =>
      refine ⟨hq, ?_, ?_⟩
      · show ((List.length [] : ℕ) : ℤ) < _
        simpa using hq
      · intro p hp
        simp [FedAvgServerHandler.init] at hp
  | step s p hs hp ih =>
      obtain ⟨hq, hlt, hmem⟩ := ih
      have hmem' : ∀ q ∈ s.client_buffer_cache ++ [p],
          q.model_parameters.length = d := by
        intro q hq'
        rcases List.mem_append.1 hq' with h1 | h1
        · exact hmem q h1
        · rcases List.mem_singleton.1 h1 with rfl
          exact hp
      by_cases hl :
          (((s.client_buffer_cache ++ [p]).length : ℤ) = s.num_clients_per_round)
      · obtain ⟨v, hv⟩ := global_update_isOk (s.client_buffer_cache ++ [p]) d
          (by simp) hmem'
        have hload : s.load p =
            ({ s with model := v, round := s.round + 1, client_buffer_cache := [] },
              Except.ok true) := by
          unfold FedAvgServerHandler.load
          rw [if_pos hl, hv]
        rw [hload]
        refine ⟨hq, ?_, ?_⟩
        · show ((List.length [] : ℕ) : ℤ) < _
          simpa using hq
        · intro q hq'
          simp at hq'
      · have hload : s.load p =
            ({ s with client_buffer_cache := s.client_buffer_cache ++ [p] },
              Except.ok false) := by
          unfold FedAvgServerHandler.load
          rw [if_neg hl]
        rw [hload]
        refine ⟨hq, ?_, hmem'⟩
        show (((s.client_buffer_cache ++ [p]).length : ℕ) : ℤ) <
          s.num_clients_per_round
        have hlen : ((s.client_buffer_cache ++ [p]).length : ℤ) =
            (s.client_buffer_cache.length : ℤ) + 1 := by
          simp
        omega

/-- C4: with the quota fixed positive at construction, every state
reachable by well-formed `load` operations keeps the buffer strictly
below the quota; `load` preserves the quota, and whenever it fires
aggregation (returns true) it resets the buffer to empty and increments
the round by exactly 1. -/
theorem round_state_invariant (d : ℕ) (s : FedAvgServerHandler)
    (p : FedAvgUplinkPackage) (h : ReachableHandler d s)
    (hp : p.model_parameters.length = d) :
    1 ≤ s.num_clients_per_round ∧
    (s.client_buffer_cache.length : ℤ) < s.num_clients_per_round ∧
    (s.load p).1.num_clients_per_round = s.num_clients_per_round ∧
    ((s.load p).2 = Except.ok true →
      (s.load p).1.client_buffer_cache = [] ∧ (s.load p).1.round = s.round + 1) := by
  refine ⟨(reachable_inv d s h).1, (reachable_inv d s h).2.1, ?_, ?_⟩
  · by_cases hl :
        (((s.client_buffer_cache ++ [p]).length : ℤ) = s.num_clients_per_round)
    · rcases hgu : FedAvgServerHandler.global_update (s.client_buffer_cache ++ [p])
        with e | v
      · rw [load_eq_trigger_err s p e hl hgu]
      · rw [load_eq_trigger_ok s p v hl hgu]
    · rw [load_eq_no_trigger s p hl]
  · intro ht
    by_cases hl :
        (((s.client_buffer_cache ++ [p]).length : ℤ) = s.num_clients_per_round)
    · rcases hgu : FedAvgServerHandler.global_update (s.client_buffer_cache ++ [p])
        with e | v
      · rw [load_eq_trigger_err s p e hl hgu] at ht
        simp at ht
      · rw [load_eq_trigger_ok s p v hl hgu]
        exact ⟨rfl, rfl⟩
    · rw [load_eq_no_trigger s p hl] at ht
      simp at ht

/-- Witness for C4 at a freshly constructed quota-1 coordinator. -/
theorem round_state_invariant_witness :
    1 ≤ (FedAvgServerHandler.init 5 1 1 [TVal.fin 0]).num_clients_per_round ∧
    (((FedAvgServerHandler.init 5 1 1
        [TVal.fin 0]).client_buffer_cache.length : ℤ) <
      (FedAvgServerHandler.init 5 1 1 [TVal.fin 0]).num_clients_per_round) ∧
    ((FedAvgServerHandler.init 5 1 1 [TVal.fin 0]).load
        ⟨[TVal.fin 1], 1, none⟩).1.num_clients_per_round =
      (FedAvgServerHandler.init 5 1 1 [TVal.fin 0]).num_clients_per_round ∧
    (((FedAvgServerHandler.init 5 1 1 [TVal.fin 0]).load
        ⟨[TVal.fin 1], 1, none⟩).2 = Except.ok true →
      ((FedAvgServerHandler.init 5 1 1 [TVal.fin 0]).load
          ⟨[TVal.fin 1], 1, none⟩).1.client_buffer_cache = [] ∧
        ((FedAvgServerHandler.init 5 1 1 [TVal.fin 0]).load
          ⟨[TVal.fin 1], 1, none⟩).1.round =
          (FedAvgServerHandler.init 5 1 1 [TVal.fin 0]).round + 1) :=
  round_state_invariant 1 (FedAvgServerHandler.init 5 1 1 [TVal.fin 0])
    ⟨[TVal.fin 1], 1, none⟩
    (ReachableHandler.init 5 1 1 [TVal.fin 0]
      (by simp [FedAvgServerHandler.init, pyInt]))
    rfl

/-- Witness for C1 with two parameter vectors of length two and
weights 1 and 3. -/
theorem aggregate_weighted_average_witness :
    aggregate ([[1, 3], [2, 5]].map (fun p => p.map TVal.fin)) [1, 3] =
      Except.ok ((List.range 2).map (fun j => TVal.fin
        ((List.zipWith (fun (p : List ℚ) (w : ℤ) => p.getD j 0 * (w : ℚ))
            [[1, 3], [2, 5]] [1, 3]).sum / (((List.sum [1, 3] : ℤ)) : ℚ)))) :=
  aggregate_weighted_average 2 [[1, 3], [2, 5]] [1, 3] (by decide) (by decide)
    (by decide) (by decide)

end BlazeFL
